import Mathlib

/-!
# A shallow embedding of the psyringe dependency injector

This file embeds the core of `psyringe.go` (package psyringe): the
type-keyed registry (`values`, `ctors`, `injectionTypes` maps), the
lazy once-only constructor realization (`ctor.getValue`), registration
(`Add`/`add`/`tryMakeCtor`/`addCtor`/`addValue`/`registerInjectionType`),
static validation (`Test`/`testParametersAreRegisteredIn`), field
injection (`Inject`/`inject`/`getValue`) and `Clone`.

Concurrency in the source (goroutines, `sync.Once`, unbuffered error
channels) is embedded as explicit sequential state passing: each
`ctor`'s mutable fields (`once`, `value`, the queue of errors sent on
its unbuffered `errChan` that have not yet been received by a caller)
become a `CtorState` record threaded through every call.  Go's
`sync.Once` admits the body to run at most once; a re-entrant request
while realization is in flight deadlocks in Go, which the embedding
renders as divergence (`none`).  Recursion through the constructor
graph is bounded by explicit fuel; `none` means the Go program would
not terminate (deadlock on a dependency cycle or fuel exhaustion).

`reflect.Type` is embedded as the inductive `Ty`, `reflect.Value` as
`Value` (with `Value.invalid` standing for the zero `reflect.Value{}`),
and Go `error` values as `Err`, separating the `NoConstructorOrValue`
struct from `fmt.Errorf`-style message errors exactly as the source's
type assertion `err.(NoConstructorOrValue)` does.

Ghost instrumentation: the `invoked` log in `Psyringe` records each
call of a user constructor function (`v.Call` in the source); it is
appended to exactly where the source invokes the user function and is
read by no embedded operation, so it does not alter behaviour.
-/

set_option maxHeartbeats 1000000

namespace Psy

mutual
/-- Embedding of `reflect.Type`: named base types, pointer types, and
function types (with their variadic flag, checked by `tryMakeCtor`),
plus the distinguished `error` interface type (`terror` in the source).
Function parameter and result lists use the mutually defined `TyList`. -/
inductive Ty where
  | base (nm : String)
  | ptr (elem : Ty)
  | func (ins : TyList) (outs : TyList) (variadic : Bool)
  | err
  deriving DecidableEq, Repr
/-- A list of `Ty`, mutually inductive with `Ty`. -/
inductive TyList where
  | nil
  | cons (head : Ty) (tail : TyList)
  deriving DecidableEq, Repr
end

/-- Convert a `TyList` to an ordinary list (used to build the
`inTypes []reflect.Type` slice in `tryMakeCtor`). -/
def TyList.toList : TyList → List Ty
  | .nil => []
  | .cons a rest => a :: rest.toList

/-- Embedding of `reflect.Value`: `invalid` is the zero `reflect.Value{}`;
`mk t n` is a valid value of type `t` distinguished by the tag `n`. -/
inductive Value where
  | invalid
  | mk (t : Ty) (tag : Nat)
  deriving DecidableEq, Repr

/-- Embedding of Go `error` values returned by the package: the
`NoConstructorOrValue` struct (fields `ForType`, `ConstructorType`,
`ConstructorParamIndex`, the latter two optional pointers) and plain
`fmt.Errorf` message errors. -/
inductive Err where
  | noConstructorOrValue (forType : Ty) (constructorType : Option Ty)
      (constructorParamIndex : Option Nat)
  | message (msg : String)
  deriving DecidableEq, Repr

/-- The type assertion `err.(NoConstructorOrValue)` from `inject`. -/
def Err.isNoConstructorOrValue : Err → Bool
  | .noConstructorOrValue _ _ _ => true
  | .message _ => false

/-- Association-list embedding of a Go `map` keyed by `reflect.Type`:
lookup. -/
def lookupTy {α : Type} : List (Ty × α) → Ty → Option α
  | [], _ => none
  | (k, a) :: rest, t => if k = t then some a else lookupTy rest t

/-- Association-list embedding of a Go `map` keyed by `reflect.Type`:
insertion with overwrite (`m[k] = v`). -/
def insertTy {α : Type} : List (Ty × α) → Ty → α → List (Ty × α)
  | [], t, a => [(t, a)]
  | (k, b) :: rest, t, a =>
      if k = t then (k, a) :: rest else (k, b) :: insertTy rest t a

/-- The immutable part of the source's `ctor` struct: output injection
type, ordered input types, and the wrapped user function.  `construct`
here is the underlying Go function call `v.Call` (returning the first
output and the optional second `error` output); the argument-validity
precheck that the source's `construct` closure performs before calling
`v.Call` is written out in `runConstruct` below. -/
structure Ctor where
  outType : Ty
  inTypes : List Ty
  construct : List Value → Value × Option Err

/-- The mutable realization state of one `ctor`: whether `once.Do` has
consumed its `sync.Once`, the errors already sent on the unbuffered
`errChan` but not yet received by any caller, the value the realization
body wrote (or will write) to `c.value`, and `value` proper — `some`
once the source's `c.value` pointer has been set. -/
structure CtorState where
  once : Bool := false
  pending : List Err := []
  finalValue : Value := Value.invalid
  value : Option Value := none
  deriving DecidableEq, Repr

/-- Embedding of the `Psyringe` struct.  `initialised` models whether
the maps are non-nil (i.e. whether `initOnce.Do(init)` has run: the
source's `Inject` checks `s.values == nil`).  `states` carries the
mutable `CtorState` of the `ctor` stored under each key; `invoked` is
the ghost log of user-constructor invocations (see module docstring). -/
structure Psyringe where
  initialised : Bool := false
  values : List (Ty × Value) := []
  ctors : List (Ty × Ctor) := []
  states : List (Ty × CtorState) := []
  injectionTypes : List Ty := []
  invoked : List Ty := []

/-- The zero value `Psyringe{}` (maps nil, nothing registered). -/
def Psyringe.empty : Psyringe := {}

/-- Realization state of the `ctor` registered under `t` (fresh if the
key is absent, matching a freshly allocated `ctor`). -/
def Psyringe.stateOf (s : Psyringe) (t : Ty) : CtorState :=
  (lookupTy s.states t).getD {}

/-- Replace the realization state of the `ctor` registered under `t`. -/
def Psyringe.setState (s : Psyringe) (t : Ty) (st : CtorState) : Psyringe :=
  { s with states := insertTy s.states t st }

mutual
/-- `fmt` rendering of a `reflect.Type` (`%s`), used in error texts. -/
def Ty.str : Ty → String
  | .base nm => nm
  | .ptr t => "*" ++ Ty.str t
  | .func ins outs _ =>
      "func(" ++ TyList.strJoin ins ++ ")" ++
        (match outs with
         | .nil => ""
         | .cons _ .nil => " " ++ TyList.strJoin outs
         | _ => " (" ++ TyList.strJoin outs ++ ")")
  | .err => "error"
/-- Comma-separated rendering of a `TyList`. -/
def TyList.strJoin : TyList → String
  | .nil => ""
  | .cons a .nil => Ty.str a
  | .cons a rest => Ty.str a ++ ", " ++ TyList.strJoin rest
end

/-- One element of the variadic `constructorsAndValues ...interface{}`
argument of `Add`/`New`: its reflected type `ty`, its value `val` (used
when it is registered as a fully realised value), the effect of calling
it (`call`, used when it is a function and becomes a constructor —
this is `v.Call` returning the first output and the optional `error`
second output), and whether the interface value is `nil`. -/
structure Item where
  ty : Ty
  val : Value
  call : List Value → Value × Option Err := fun _ => (Value.invalid, none)
  nilItem : Bool := false

/-- `tryMakeCtor`: classify an added item.  A non-variadic function
type returning one value, or a value plus an `error`, becomes a `ctor`
whose injection type is the first output type; anything else is `none`. -/
def tryMakeCtor (item : Item) : Option Ctor :=
  match item.ty with
  | .func ins outs variadic =>
      if variadic then none
      else
        match outs with
        | .cons o .nil =>
            some { outType := o, inTypes := ins.toList, construct := item.call }
        | .cons o (.cons e .nil) =>
            if e = Ty.err then
              some { outType := o, inTypes := ins.toList, construct := item.call }
            else none
        | _ => none
  | _ => none

/-- `registerInjectionType`: fail if the injection type is already
registered, otherwise record it. -/
def Psyringe.registerInjectionType (s : Psyringe) (t : Ty) :
    Option Err × Psyringe :=
  if s.injectionTypes.contains t then
    (some (Err.message ("injection type " ++ Ty.str t ++ " already registered")), s)
  else
    (none, { s with injectionTypes := s.injectionTypes ++ [t] })

/-- `addCtor`: store the constructor under its injection type (note the
source stores it *before* the duplicate check in
`registerInjectionType`, so an existing entry is overwritten even when
an error is returned).  Storing a freshly built `ctor` resets the
realization state for that key. -/
def Psyringe.addCtor (s : Psyringe) (c : Ctor) : Option Err × Psyringe :=
  let s₁ : Psyringe :=
    { s with ctors := insertTy s.ctors c.outType c,
             states := insertTy s.states c.outType {} }
  s₁.registerInjectionType c.outType

/-- `addValue`: store the fully realised value under its type (again
stored before the duplicate check). -/
def Psyringe.addValue (s : Psyringe) (t : Ty) (v : Value) :
    Option Err × Psyringe :=
  let s₁ : Psyringe := { s with values := insertTy s.values t v }
  s₁.registerInjectionType t

/-- `Psyringe.add`: classify one item and register it. -/
def Psyringe.add (s : Psyringe) (item : Item) : Option Err × Psyringe :=
  match tryMakeCtor item with
  | some c => s.addCtor c
  | none => s.addValue item.ty item.val

/-- `init`: make the maps non-nil (run once via `initOnce`). -/
def Psyringe.init (s : Psyringe) : Psyringe :=
  { s with initialised := true, values := [], ctors := [],
           states := [], injectionTypes := [] }

/-- The loop body of `Add`: reject `nil` items (naming the argument
index), otherwise `add` each item in order, returning on the first
error. -/
def Psyringe.addLoop : Psyringe → List Item → Nat → Option Err × Psyringe
  | s, [], _ => (none, s)
  | s, item :: rest, i =>
      if item.nilItem then
        (some (Err.message ("cannot add nil (argument " ++ toString i ++ ")")), s)
      else
        match s.add item with
        | (some e, s') => (some e, s')
        | (none, s') => Psyringe.addLoop s' rest (i + 1)

/-- `Psyringe.Add`: ensure `init` has run, then add every item in
order, stopping at the first error. -/
def Psyringe.Add (s : Psyringe) (items : List Item) : Option Err × Psyringe :=
  Psyringe.addLoop (if s.initialised then s else s.init) items 0

/-- `Psyringe.Clone` as implemented in the source: it panics with
"Clone is not yet implemented" for every receiver; the panic is
embedded as an `Except.error` carrying the panic message. -/
def Psyringe.Clone (_s : Psyringe) : Except String Psyringe :=
  .error "Clone is not yet implemented"

/-- `ctor.testParametersAreRegisteredIn`, with the running zero-based
parameter index made explicit: find the first parameter type with
neither a constructor nor a value registered and report it (note the
reported `ConstructorType` is the stored `c.outType`, the constructor's
injection type — the source's `ctor` does not retain the function's own
type). -/
def Psyringe.testCtorFrom (s : Psyringe) (c : Ctor) :
    Nat → List Ty → Option Err
  | _, [] => none
  | i, p :: ps =>
      if (lookupTy s.ctors p).isSome then s.testCtorFrom c (i + 1) ps
      else if (lookupTy s.values p).isSome then s.testCtorFrom c (i + 1) ps
      else some (Err.noConstructorOrValue p (some c.outType) (some i))

/-- `ctor.testParametersAreRegisteredIn`. -/
def Psyringe.testCtor (s : Psyringe) (c : Ctor) : Option Err :=
  s.testCtorFrom c 0 c.inTypes

/-- `Psyringe.Test`, iterating the `ctors` map in the key order given
by `order`: Go's `for _, c := range s.ctors` visits each entry exactly
once in an unspecified, run-to-run varying order, which the embedding
models by quantifying over `order` (a permutation of the map's keys).
Keys in `order` not present in the map contribute nothing. -/
def Psyringe.TestWithOrder (s : Psyringe) : List Ty → Option Err
  | [] => none
  | t :: rest =>
      match lookupTy s.ctors t with
      | none => s.TestWithOrder rest
      | some c =>
          match s.testCtor c with
          | some e => some e
          | none => s.TestWithOrder rest

/-- `Psyringe.Test` at the canonical (insertion) iteration order. -/
def Psyringe.Test (s : Psyringe) : Option Err :=
  s.TestWithOrder (s.ctors.map Prod.fst)

/-- The keys of the `ctors` map (for stating which iteration orders
are legitimate). -/
def Psyringe.ctorKeys (s : Psyringe) : List Ty :=
  s.ctors.map Prod.fst

/-- The body of the `construct` closure built in `tryMakeCtor`: check
every argument is a valid `reflect.Value` (failed inputs left their
slot as the zero `reflect.Value{}`), then perform `v.Call` — the user
constructor runs exactly here, so the ghost `invoked` log is appended
exactly here. -/
def Psyringe.runConstruct (s : Psyringe) (tkey : Ty) (c : Ctor)
    (args : List Value) : Value × Option Err × Psyringe :=
  match args.findIdx? (fun v => v == Value.invalid) with
  | some i =>
      (Value.invalid,
       some (Err.message ("unable to create arg " ++ toString i ++ " (" ++
         Ty.str (c.inTypes.getD i Ty.err) ++ ") of " ++
         Ty.str c.outType ++ " constructor")),
       s)
  | none =>
      let r := c.construct args
      (r.1, r.2, { s with invoked := s.invoked ++ [tkey] })

/-- The fan-out over a constructor's inputs inside `ctor.getValue`
(one goroutine per input), sequentialised in declared input order: each
input is resolved with the supplied `gv`; a failed input queues its
error for the `errChan` and leaves its argument slot as the returned
zero `reflect.Value{}`.  The queue order among concurrently failing
inputs is unspecified in Go; the embedding fixes declared order.
`none` propagates divergence (the fan-out would deadlock and `wg.Wait`
would never return). -/
def resolveArgsWith (gv : Psyringe → Ty → Option (Except Err Value × Psyringe)) :
    Psyringe → List Ty → Option (List Value × List Err × Psyringe)
  | s, [] => some ([], [], s)
  | s, t :: ts =>
      match gv s t with
      | none => none
      | some (.ok v, s') =>
          match resolveArgsWith gv s' ts with
          | none => none
          | some (args, errs, s'') => some (v :: args, errs, s'')
      | some (.error e, s') =>
          match resolveArgsWith gv s' ts with
          | none => none
          | some (args, errs, s'') => some (Value.invalid :: args, e :: errs, s'')

/-- Delivery of a realization outcome to callers of `ctor.getValue`:
`q` is the queue of errors sent on the unbuffered `errChan` and not yet
received, `v` the value the realization body writes to `c.value`.  With
an empty queue the body has already set `c.value` and the caller gets
the cached value with a nil error; otherwise the caller receives the
next queued error, and consuming the last one unblocks the body, which
then sets `c.value`. -/
def deliver (s : Psyringe) (t : Ty) (v : Value) : List Err →
    Except Err Value × Psyringe
  | [] =>
      (.ok v, s.setState t
        { once := true, pending := [], finalValue := v, value := some v })
  | e :: rest =>
      (.error e, s.setState t
        { once := true, pending := rest, finalValue := v,
          value := if rest.isEmpty then some v else none })

/-- `Psyringe.getValue` together with `ctor.getValue`, sequentialised;
`fuel` bounds the recursion depth and `none` means the Go program
diverges (deadlock on a dependency cycle, or a read from an `errChan`
that will never be written or closed).  The branches mirror the source:

* a pre-realised value is returned directly;
* an absent key yields `NoConstructorOrValue{ForType: t}`;
* a `ctor` whose `value` pointer is set returns the cached value with a
  nil error (the fast path `if c.value != nil`);
* if `once.Do` has been consumed but `value` is unset, the caller reads
  the next queued error from `errChan`; consuming the last queued error
  unblocks the realization body, which then sets `c.value` (a read with
  nothing queued blocks forever: the realization is still in flight —
  a re-entrant request on a dependency cycle — so the result is `none`);
* otherwise this caller consumes the `sync.Once` (marked before the
  recursive fan-out, as `once.Do` is marked in flight immediately),
  resolves all inputs, runs `construct`, and delivers: with no queued
  error the value is cached and returned; with queued errors the first
  is delivered now and `c.value` is set once the queue drains. -/
def getValueFuel : Nat → Psyringe → Ty → Option (Except Err Value × Psyringe)
  | 0, _, _ => none
  | fuel + 1, s, t =>
      match lookupTy s.values t with
      | some v => some (.ok v, s)
      | none =>
          match lookupTy s.ctors t with
          | none => some (.error (Err.noConstructorOrValue t none none), s)
          | some c =>
              let st := s.stateOf t
              match st.value with
              | some v => some (.ok v, s)
              | none =>
                  if st.once then
                    if st.pending.isEmpty then none
                    else some (deliver s t st.finalValue st.pending)
                  else
                    let s₁ := s.setState t { st with once := true }
                    match resolveArgsWith (getValueFuel fuel) s₁ c.inTypes with
                    | none => none
                    | some (args, errs, s₂) =>
                        match s₂.runConstruct t c args with
                        | (v, cerr, s₃) =>
                            some (deliver s₃ t v (errs ++ cerr.toList))

/-- What `inject` did to one field: assigned a resolved value, passed
the field over on `NoConstructorOrValue`, or hit a propagating error. -/
inductive FieldOutcome where
  | assigned (v : Value)
  | skipped (e : Err)
  | failed (e : Err)
  deriving DecidableEq, Repr

/-- The per-field loop of `inject`, sequentialised in field declaration
order (Go runs one goroutine per field; all of them run): resolve the
field's type; on success overwrite the field, on
`NoConstructorOrValue` leave it untouched, on any other error leave it
untouched and queue the error.  Returns the final fields, the ghost
per-field outcome trace, and the threaded psyringe state. -/
def injectFields (fuel : Nat) :
    Psyringe → List (Ty × Value) →
    Option (List (Ty × Value) × List FieldOutcome × Psyringe)
  | s, [] => some ([], [], s)
  | s, (t, cur) :: rest =>
      match getValueFuel fuel s t with
      | none => none
      | some (.ok v, s') =>
          match injectFields fuel s' rest with
          | none => none
          | some (fs, outs, s'') =>
              some ((t, v) :: fs, FieldOutcome.assigned v :: outs, s'')
      | some (.error e, s') =>
          match injectFields fuel s' rest with
          | none => none
          | some (fs, outs, s'') =>
              if e.isNoConstructorOrValue then
                some ((t, cur) :: fs, FieldOutcome.skipped e :: outs, s'')
              else
                some ((t, cur) :: fs, FieldOutcome.failed e :: outs, s'')

/-- The first error of the field loop that propagates out of `inject`
(`NoConstructorOrValue` outcomes never propagate; among propagating
errors Go returns the first received on the unbuffered `errs` channel,
which the embedding fixes to field declaration order). -/
def firstFailed : List FieldOutcome → Option Err
  | [] => none
  | FieldOutcome.failed e :: _ => some e
  | _ :: rest => firstFailed rest

/-- One argument to `Inject`: a pointer to a struct (possibly nil), a
pointer to something else, or a non-pointer — mirroring the structural
checks at the top of `inject`. -/
inductive InjectArg where
  | ptrStruct (isNilPtr : Bool) (fields : List (Ty × Value))
  | ptrOther (elem : Ty)
  | nonPtr (t : Ty)

/-- `Psyringe.inject` for one target: the structural checks in source
order (pointer, struct, nil), then the per-field loop. -/
def Psyringe.injectOne (fuel : Nat) (s : Psyringe) :
    InjectArg → Option (InjectArg × Option Err × Psyringe)
  | .nonPtr t =>
      some (.nonPtr t,
        some (Err.message ("got a " ++ Ty.str t ++ "; want a pointer")), s)
  | .ptrOther elem =>
      some (.ptrOther elem,
        some (Err.message ("got a " ++ Ty.str (Ty.ptr elem) ++ ", but " ++
          Ty.str elem ++ " is not a struct")), s)
  | .ptrStruct true fields =>
      some (.ptrStruct true fields,
        some (Err.message "got a pointer, but it was nil"), s)
  | .ptrStruct false fields =>
      match injectFields fuel s fields with
      | none => none
      | some (fs, outs, s') =>
          some (.ptrStruct false fs, firstFailed outs, s')

/-- The target loop of `Psyringe.Inject` (one goroutine per target, all
of which run; the returned error is the first received, fixed here to
target list order). -/
def Psyringe.injectLoop (fuel : Nat) :
    Psyringe → List InjectArg →
    Option (List InjectArg × Option Err × Psyringe)
  | s, [] => some ([], none, s)
  | s, a :: rest =>
      match Psyringe.injectOne fuel s a with
      | none => none
      | some (a', e, s') =>
          match Psyringe.injectLoop fuel s' rest with
          | none => none
          | some (as, e', s'') => some (a' :: as, e.orElse (fun _ => e'), s'')

/-- `Psyringe.Inject`: refuse to run on an uninitialised psyringe
(`s.values == nil`, i.e. `Add` never ran), otherwise inject every
target. -/
def Psyringe.Inject (fuel : Nat) (s : Psyringe) (targets : List InjectArg) :
    Option (List InjectArg × Option Err × Psyringe) :=
  if s.initialised then Psyringe.injectLoop fuel s targets
  else some (targets,
    some (Err.message "not initialised; call Add before Inject"), s)

/-- Run a sequence of `getValue` requests against one psyringe,
threading its realization state (each request stands for one consumer:
a target field or a constructor argument across any number of `Inject`
calls). -/
def runRequests (fuel : Nat) :
    Psyringe → List Ty → Option (List (Except Err Value) × Psyringe)
  | s, [] => some ([], s)
  | s, t :: ts =>
      match getValueFuel fuel s t with
      | none => none
      | some (r, s') =>
          match runRequests fuel s' ts with
          | none => none
          | some (rs, s'') => some (r :: rs, s'')

/-! ## Basic lemmas about the map and state helpers -/

theorem lookupTy_insertTy_self {α : Type} (m : List (Ty × α)) (k : Ty) (a : α) :
    lookupTy (insertTy m k a) k = some a := by
  induction m with
  | nil => simp [insertTy, lookupTy]
  | cons hd tl ih =>
      obtain ⟨k', b⟩ := hd
      by_cases h : k' = k
      · simp [insertTy, lookupTy, h]
      · simp [insertTy, lookupTy, h, ih]

theorem lookupTy_insertTy_ne {α : Type} (m : List (Ty × α)) (k u : Ty) (a : α)
    (h : u ≠ k) : lookupTy (insertTy m k a) u = lookupTy m u := by
  have hku : ¬(k = u) := fun he => h he.symm
  induction m with
  | nil =>
      simp only [insertTy, lookupTy]
      rw [if_neg hku]
  | cons hd tl ih =>
      obtain ⟨k', b⟩ := hd
      by_cases hk : k' = k
      · subst hk
        simp only [insertTy, if_pos rfl, lookupTy]
        rw [if_neg hku, if_neg hku]
      · simp only [insertTy, if_neg hk, lookupTy]
        by_cases hu : k' = u
        · rw [if_pos hu, if_pos hu]
        · rw [if_neg hu, if_neg hu, ih]

theorem stateOf_setState_self (s : Psyringe) (t : Ty) (st : CtorState) :
    (s.setState t st).stateOf t = st := by
  simp [Psyringe.stateOf, Psyringe.setState, lookupTy_insertTy_self]

theorem stateOf_setState_ne (s : Psyringe) (t u : Ty) (st : CtorState)
    (h : u ≠ t) : (s.setState t st).stateOf u = s.stateOf u := by
  simp [Psyringe.stateOf, Psyringe.setState, lookupTy_insertTy_ne _ _ _ _ h]

theorem setState_values (s : Psyringe) (t : Ty) (st : CtorState) :
    (s.setState t st).values = s.values := rfl

theorem setState_ctors (s : Psyringe) (t : Ty) (st : CtorState) :
    (s.setState t st).ctors = s.ctors := rfl

theorem setState_invoked (s : Psyringe) (t : Ty) (st : CtorState) :
    (s.setState t st).invoked = s.invoked := rfl

theorem setState_initialised (s : Psyringe) (t : Ty) (st : CtorState) :
    (s.setState t st).initialised = s.initialised := rfl

/-! ## The singleton invariant and transition facts -/

/-- Facts relating a psyringe state to any later state produced by
`getValue` activity: the registration data is untouched, a consumed
`sync.Once` stays consumed, a set `c.value` pointer keeps its value, a
node whose realization is in flight (once consumed, no value, nothing
queued) is untouched by other activity, and the ghost invocation log
only grows. -/
structure Step (s s' : Psyringe) : Prop where
  values_eq : s'.values = s.values
  ctors_eq : s'.ctors = s.ctors
  init_eq : s'.initialised = s.initialised
  once_mono : ∀ u, (s.stateOf u).once → (s'.stateOf u).once
  value_mono : ∀ u v, (s.stateOf u).value = some v → (s'.stateOf u).value = some v
  stuck_frozen : ∀ u, (s.stateOf u).once → (s.stateOf u).value = none →
      (s.stateOf u).pending = [] → s'.stateOf u = s.stateOf u
  count_mono : ∀ u, s.invoked.count u ≤ s'.invoked.count u

/-- A constructor whose `sync.Once` is already consumed is never
invoked again: its ghost invocation count is unchanged. -/
def Frozen (s s' : Psyringe) : Prop :=
  ∀ u, (s.stateOf u).once → s'.invoked.count u = s.invoked.count u

/-- The singleton invariant tying each constructor's realization state
to its ghost invocation count: an unconsumed `sync.Once` means a
completely fresh state and no invocation; no constructor is ever
invoked more than once; and a realized (or queued) non-invalid final
value certifies exactly one invocation. -/
structure Inv (s : Psyringe) : Prop where
  fresh_not_once : ∀ u, ¬(s.stateOf u).once → s.stateOf u = {} ∧ s.invoked.count u = 0
  count_le_one : ∀ u, s.invoked.count u ≤ 1
  value_invoked : ∀ u v, (s.stateOf u).value = some v → v ≠ Value.invalid →
      s.invoked.count u = 1
  final_invoked : ∀ u, (s.stateOf u).once → (s.stateOf u).value = none →
      (s.stateOf u).finalValue ≠ Value.invalid → s.invoked.count u = 1

theorem stepRefl (s : Psyringe) : Step s s :=
  ⟨Eq.refl _, Eq.refl _, Eq.refl _, fun _ h => h, fun _ _ h => h,
   fun _ _ _ _ => Eq.refl _, fun _ => Nat.le_refl _⟩

theorem stepTrans {s₁ s₂ s₃ : Psyringe} (a : Step s₁ s₂) (b : Step s₂ s₃) :
    Step s₁ s₃ := by
  refine ⟨b.values_eq.trans a.values_eq, b.ctors_eq.trans a.ctors_eq,
    b.init_eq.trans a.init_eq,
    fun u h => b.once_mono u (a.once_mono u h),
    fun u v h => b.value_mono u v (a.value_mono u v h),
    fun u h1 h2 h3 => ?_,
    fun u => Nat.le_trans (a.count_mono u) (b.count_mono u)⟩
  have ha := a.stuck_frozen u h1 h2 h3
  have hb := b.stuck_frozen u (by rw [ha]; exact h1) (by rw [ha]; exact h2)
    (by rw [ha]; exact h3)
  rw [hb, ha]

theorem frozenRefl (s : Psyringe) : Frozen s s := fun _ _ => Eq.refl _

theorem frozenTrans {s₁ s₂ s₃ : Psyringe} (a : Step s₁ s₂)
    (fa : Frozen s₁ s₂) (fb : Frozen s₂ s₃) : Frozen s₁ s₃ :=
  fun u h => (fb u (a.once_mono u h)).trans (fa u h)

theorem count_append_one {α : Type} [DecidableEq α] (l : List α) (a b : α) :
    (l ++ [b]).count a = l.count a + if a = b then 1 else 0 := by
  rw [List.count_append, List.count_singleton']
  by_cases h : a = b
  · simp [h]
  · rw [if_neg (fun e => h e.symm), if_neg h]

/-- `runConstruct` leaves all registration and realization state alone;
it either short-circuits on an invalid argument (returning the zero
`reflect.Value{}` plus an error, without running the user constructor)
or runs the user constructor, logging exactly one invocation of `t`. -/
theorem runConstruct_spec (s : Psyringe) (t : Ty) (c : Ctor)
    (args : List Value) (v : Value) (cerr : Option Err) (s₃ : Psyringe)
    (h : s.runConstruct t c args = (v, cerr, s₃)) :
    s₃.values = s.values ∧ s₃.ctors = s.ctors ∧ s₃.states = s.states ∧
    s₃.initialised = s.initialised ∧
    ((v = Value.invalid ∧ cerr.isSome ∧ s₃.invoked = s.invoked) ∨
      s₃.invoked = s.invoked ++ [t]) := by
  unfold Psyringe.runConstruct at h
  split at h
  · cases h
    exact ⟨rfl, rfl, rfl, rfl, Or.inl ⟨rfl, rfl, rfl⟩⟩
  · cases h
    exact ⟨rfl, rfl, rfl, rfl, Or.inr rfl⟩

/-- The psyringe returned by `deliver`. -/
theorem deliver_snd (s : Psyringe) (t : Ty) (v : Value) (q : List Err) :
    (deliver s t v q).2 = s.setState t
      { once := true, pending := q.tail, finalValue := v,
        value := if q.tail.isEmpty then some v else none } := by
  cases q with
  | nil => simp [deliver]
  | cons e rest => simp [deliver]

theorem stateOf_congr {s s' : Psyringe} (h : s'.states = s.states) (u : Ty) :
    s'.stateOf u = s.stateOf u := by
  simp [Psyringe.stateOf, h]

/-- The fan-out over constructor inputs preserves `Step`, `Frozen` and
the singleton invariant whenever the supplied resolver does. -/
theorem ra_good
    (gv : Psyringe → Ty → Option (Except Err Value × Psyringe))
    (hgv : ∀ s t rs, Inv s → gv s t = some rs →
      Step s rs.2 ∧ Frozen s rs.2 ∧ Inv rs.2)
    (ts : List Ty) :
    ∀ (s : Psyringe) (out : List Value × List Err × Psyringe), Inv s →
      resolveArgsWith gv s ts = some out →
      Step s out.2.2 ∧ Frozen s out.2.2 ∧ Inv out.2.2 := by
  induction ts with
  | nil =>
      intro s out hi h
      simp only [resolveArgsWith] at h
      cases h
      exact ⟨stepRefl s, frozenRefl s, hi⟩
  | cons t ts ih =>
      intro s out hi h
      simp only [resolveArgsWith] at h
      split at h
      · cases h
      · rename_i v s' heq
        have h1 := hgv s t (.ok v, s') hi heq
        split at h
        · cases h
        · rename_i args errs s'' heq2
          have h2 := ih s' (args, errs, s'') h1.2.2 heq2
          cases h
          exact ⟨stepTrans h1.1 h2.1, frozenTrans h1.1 h1.2.1 h2.2.1, h2.2.2⟩
      · rename_i e s' heq
        have h1 := hgv s t (.error e, s') hi heq
        split at h
        · cases h
        · rename_i args errs s'' heq2
          have h2 := ih s' (args, errs, s'') h1.2.2 heq2
          cases h
          exact ⟨stepTrans h1.1 h2.1, frozenTrans h1.1 h1.2.1 h2.2.1, h2.2.2⟩

/-- Receiving a queued error from an already-running realization
(the drain branch of `getValueFuel`) preserves the invariant. -/
theorem drain_good (s : Psyringe) (t : Ty) (hi : Inv s)
    (honce : (s.stateOf t).once = true)
    (hval : (s.stateOf t).value = none)
    (hpend : (s.stateOf t).pending ≠ []) :
    Step s (deliver s t (s.stateOf t).finalValue (s.stateOf t).pending).2 ∧
      Frozen s (deliver s t (s.stateOf t).finalValue (s.stateOf t).pending).2 ∧
      Inv (deliver s t (s.stateOf t).finalValue (s.stateOf t).pending).2 := by
  rw [deliver_snd]
  refine ⟨⟨rfl, rfl, rfl, ?_, ?_, ?_, fun u => Nat.le_refl _⟩,
    fun u _ => rfl, ?_, fun u => hi.count_le_one u, ?_, ?_⟩
  · intro u hu
    by_cases h : u = t
    · subst h; rw [stateOf_setState_self]
    · rw [stateOf_setState_ne _ _ _ _ h]; exact hu
  · intro u v hu
    by_cases h : u = t
    · subst h; rw [hval] at hu; cases hu
    · rw [stateOf_setState_ne _ _ _ _ h]; exact hu
  · intro u h1 h2 h3
    by_cases h : u = t
    · subst h; rw [h3] at hpend; cases hpend rfl
    · rw [stateOf_setState_ne _ _ _ _ h]
  · intro u hu
    by_cases h : u = t
    · subst h; rw [stateOf_setState_self] at hu; cases hu rfl
    · rw [stateOf_setState_ne _ _ _ _ h] at hu
      rw [stateOf_setState_ne _ _ _ _ h, setState_invoked]
      exact hi.fresh_not_once u hu
  · intro u v hu hv
    by_cases h : u = t
    · subst h
      rw [stateOf_setState_self] at hu
      rw [setState_invoked]
      by_cases he : (s.stateOf u).pending.tail.isEmpty = true
      · rw [if_pos he] at hu
        cases hu
        exact hi.final_invoked _ honce hval hv
      · rw [if_neg he] at hu; cases hu
    · rw [stateOf_setState_ne _ _ _ _ h] at hu
      rw [setState_invoked]
      exact hi.value_invoked u v hu hv
  · intro u h1 h2 h3
    by_cases h : u = t
    · subst h
      rw [stateOf_setState_self] at h3
      rw [setState_invoked]
      exact hi.final_invoked _ honce hval h3
    · rw [stateOf_setState_ne _ _ _ _ h] at h1 h2 h3
      rw [setState_invoked]
      exact hi.final_invoked u h1 h2 h3

/-- Running a realization to completion (the slow branch of
`getValueFuel`: consume the `sync.Once`, fan out over the inputs, run
`construct`, deliver the outcome) preserves the invariant. -/
theorem realize_good
    (gv : Psyringe → Ty → Option (Except Err Value × Psyringe))
    (hgv : ∀ s t rs, Inv s → gv s t = some rs →
      Step s rs.2 ∧ Frozen s rs.2 ∧ Inv rs.2)
    (s : Psyringe) (t : Ty) (c : Ctor) (hi : Inv s)
    (honce : ¬((s.stateOf t).once = true))
    (hval : (s.stateOf t).value = none)
    (args : List Value) (errs : List Err) (s₂ : Psyringe)
    (v : Value) (cerr : Option Err) (s₃ : Psyringe)
    (hra : resolveArgsWith gv (s.setState t { s.stateOf t with once := true })
      c.inTypes = some (args, errs, s₂))
    (hrc : s₂.runConstruct t c args = (v, cerr, s₃)) :
    Step s (deliver s₃ t v (errs ++ cerr.toList)).2 ∧
      Frozen s (deliver s₃ t v (errs ++ cerr.toList)).2 ∧
      Inv (deliver s₃ t v (errs ++ cerr.toList)).2 := by
  obtain ⟨hfresh, hcount0⟩ := hi.fresh_not_once t honce
  set s₁ := s.setState t { s.stateOf t with once := true } with hs₁def
  have h1self : s₁.stateOf t =
      { once := true, pending := [], finalValue := Value.invalid,
        value := none } := by
    rw [hs₁def, stateOf_setState_self, hfresh]
  have h1ne : ∀ u, u ≠ t → s₁.stateOf u = s.stateOf u := fun u hu => by
    rw [hs₁def, stateOf_setState_ne _ _ _ _ hu]
  have h1values : s₁.values = s.values := by rw [hs₁def]; rfl
  have h1ctors : s₁.ctors = s.ctors := by rw [hs₁def]; rfl
  have h1init : s₁.initialised = s.initialised := by rw [hs₁def]; rfl
  have h1invoked : s₁.invoked = s.invoked := by rw [hs₁def]; rfl
  have hInv1 : Inv s₁ := by
    constructor
    · intro u hu
      by_cases h : u = t
      · subst h; rw [h1self] at hu; exact absurd rfl hu
      · rw [h1ne u h] at hu
        rw [h1ne u h, h1invoked]
        exact hi.fresh_not_once u hu
    · intro u; rw [h1invoked]; exact hi.count_le_one u
    · intro u w hu hw
      by_cases h : u = t
      · subst h; rw [h1self] at hu; cases hu
      · rw [h1ne u h] at hu
        rw [h1invoked]
        exact hi.value_invoked u w hu hw
    · intro u hA hB hC
      by_cases h : u = t
      · subst h; rw [h1self] at hC; exact absurd rfl hC
      · rw [h1ne u h] at hA hB hC
        rw [h1invoked]
        exact hi.final_invoked u hA hB hC
  obtain ⟨hS12, hF12, hInv2⟩ :=
    ra_good gv hgv c.inTypes s₁ (args, errs, s₂) hInv1 hra
  have h1once : (s₁.stateOf t).once = true := by rw [h1self]
  have h2t : s₂.stateOf t = s₁.stateOf t :=
    hS12.stuck_frozen t (by rw [h1self]) (by rw [h1self]) (by rw [h1self])
  have hc2t : s₂.invoked.count t = 0 := by
    rw [hF12 t h1once, h1invoked]; exact hcount0
  obtain ⟨h3values, h3ctors, h3states, h3init, hlog⟩ :=
    runConstruct_spec s₂ t c args v cerr s₃ hrc
  have h3st : ∀ u, s₃.stateOf u = s₂.stateOf u := stateOf_congr h3states
  have hc3ne : ∀ u, u ≠ t → s₃.invoked.count u = s₂.invoked.count u := by
    intro u hu
    cases hlog with
    | inl hw => rw [hw.2.2]
    | inr hl => rw [hl, count_append_one, if_neg hu, Nat.add_zero]
  have hc3mono : ∀ u, s₂.invoked.count u ≤ s₃.invoked.count u := by
    intro u
    cases hlog with
    | inl hw => rw [hw.2.2]
    | inr hl => rw [hl, count_append_one]; exact Nat.le_add_right _ _
  have hc3le : s₃.invoked.count t ≤ 1 := by
    cases hlog with
    | inl hw => rw [hw.2.2, hc2t]; exact Nat.zero_le 1
    | inr hl => rw [hl, count_append_one, if_pos rfl, hc2t]
  rw [deliver_snd]
  refine ⟨⟨?_, ?_, ?_, ?_, ?_, ?_, ?_⟩, ?_, ?_, ?_, ?_, ?_⟩
  · rw [setState_values, h3values, hS12.values_eq, h1values]
  · rw [setState_ctors, h3ctors, hS12.ctors_eq, h1ctors]
  · rw [setState_initialised, h3init, hS12.init_eq, h1init]
  · intro u hu
    by_cases h : u = t
    · subst h; rw [stateOf_setState_self]
    · rw [stateOf_setState_ne _ _ _ _ h, h3st u]
      exact hS12.once_mono u (by rw [h1ne u h]; exact hu)
  · intro u w hu
    by_cases h : u = t
    · subst h; rw [hval] at hu; cases hu
    · rw [stateOf_setState_ne _ _ _ _ h, h3st u]
      exact hS12.value_mono u w (by rw [h1ne u h]; exact hu)
  · intro u hA hB hC
    by_cases h : u = t
    · subst h; exact absurd hA honce
    · rw [stateOf_setState_ne _ _ _ _ h, h3st u]
      rw [hS12.stuck_frozen u (by rw [h1ne u h]; exact hA)
        (by rw [h1ne u h]; exact hB) (by rw [h1ne u h]; exact hC), h1ne u h]
  · intro u
    rw [setState_invoked]
    calc s.invoked.count u = s₁.invoked.count u := by rw [h1invoked]
      _ ≤ s₂.invoked.count u := hS12.count_mono u
      _ ≤ s₃.invoked.count u := hc3mono u
  · intro u hu
    have h : u ≠ t := fun he => honce (he ▸ hu)
    rw [setState_invoked, hc3ne u h, hF12 u (by rw [h1ne u h]; exact hu),
      h1invoked]
  · intro u hu
    by_cases h : u = t
    · subst h; rw [stateOf_setState_self] at hu; exact absurd rfl hu
    · rw [stateOf_setState_ne _ _ _ _ h, h3st u] at hu
      rw [stateOf_setState_ne _ _ _ _ h, h3st u, setState_invoked, hc3ne u h]
      exact hInv2.fresh_not_once u hu
  · intro u
    rw [setState_invoked]
    by_cases h : u = t
    · subst h; exact hc3le
    · rw [hc3ne u h]; exact hInv2.count_le_one u
  · intro u w hu hw
    by_cases h : u = t
    · subst h
      rw [stateOf_setState_self] at hu
      rw [setState_invoked]
      by_cases he : (errs ++ cerr.toList).tail.isEmpty = true
      · rw [if_pos he] at hu
        cases hu
        cases hlog with
        | inl hwr => exact absurd hwr.1 hw
        | inr hl => rw [hl, count_append_one, if_pos rfl, hc2t]
      · rw [if_neg he] at hu; cases hu
    · rw [stateOf_setState_ne _ _ _ _ h, h3st u] at hu
      rw [setState_invoked, hc3ne u h]
      exact hInv2.value_invoked u w hu hw
  · intro u hA hB hC
    by_cases h : u = t
    · subst h
      rw [stateOf_setState_self] at hC
      rw [setState_invoked]
      cases hlog with
      | inl hwr => exact absurd hwr.1 hC
      | inr hl => rw [hl, count_append_one, if_pos rfl, hc2t]
    · rw [stateOf_setState_ne _ _ _ _ h, h3st u] at hA hB hC
      rw [setState_invoked, hc3ne u h]
      exact hInv2.final_invoked u hA hB hC

/-- Every terminating `getValue` call is a `Step`, never re-invokes a
constructor whose `sync.Once` was already consumed, and preserves the
singleton invariant. -/
theorem gv_good :
    ∀ (f : Nat) (s : Psyringe) (t : Ty) (rs : Except Err Value × Psyringe),
      Inv s → getValueFuel f s t = some rs →
      Step s rs.2 ∧ Frozen s rs.2 ∧ Inv rs.2 := by
  intro f
  induction f with
  | zero => intro s t rs _ h; simp [getValueFuel] at h
  | succ f ih =>
      intro s t rs hi h
      simp only [getValueFuel] at h
      split at h
      · cases h; exact ⟨stepRefl s, frozenRefl s, hi⟩
      · split at h
        · cases h; exact ⟨stepRefl s, frozenRefl s, hi⟩
        · rename_i c hc
          split at h
          · cases h; exact ⟨stepRefl s, frozenRefl s, hi⟩
          · rename_i hval
            split at h
            · rename_i honce
              split at h
              · cases h
              · rename_i hpend
                cases h
                exact drain_good s t hi honce hval
                  (fun heq => hpend (by rw [heq]; rfl))
            · rename_i honce
              split at h
              · cases h
              · rename_i args errs s₂ hra
                rcases hrc : s₂.runConstruct t c args with ⟨v, cerr, s₃⟩
                rw [hrc] at h
                cases h
                exact realize_good (getValueFuel f)
                  (fun s' t' rs' hi' h' => ih s' t' rs' hi' h')
                  s t c hi honce hval args errs s₂ v cerr s₃ hra hrc

/-- A request for `t` is answered from cache: either the `values` map
holds `v`, or a `ctor` is registered for `t` and its `value` pointer is
set to `v`. -/
def CachedOk (s : Psyringe) (t : Ty) (v : Value) : Prop :=
  lookupTy s.values t = some v ∨
    (lookupTy s.values t = none ∧ (lookupTy s.ctors t).isSome ∧
      (s.stateOf t).value = some v)

/-- A psyringe none of whose constructors has begun realization: every
`ctor` state is fresh and the ghost invocation log is empty.  This is
the state of any psyringe straight after registration. -/
def Fresh (s : Psyringe) : Prop :=
  s.invoked = [] ∧ ∀ u, s.stateOf u = {}

theorem Inv.of_fresh {s : Psyringe} (h : Fresh s) : Inv s := by
  obtain ⟨hlog, hst⟩ := h
  constructor
  · intro u _
    exact ⟨hst u, by rw [hlog]; rfl⟩
  · intro u; rw [hlog]; exact Nat.zero_le 1
  · intro u v hu _
    rw [hst u] at hu; cases hu
  · intro u hu hv hf
    rw [hst u] at hf; exact absurd rfl hf

theorem CachedOk.step {s s' : Psyringe} {t : Ty} {v : Value}
    (h : CachedOk s t v) (hs : Step s s') : CachedOk s' t v := by
  cases h with
  | inl hv => exact Or.inl (by rw [hs.values_eq]; exact hv)
  | inr hv =>
      refine Or.inr ⟨by rw [hs.values_eq]; exact hv.1,
        by rw [hs.ctors_eq]; exact hv.2.1, ?_⟩
      exact hs.value_mono t v hv.2.2

/-- A cached answer is returned as-is, without touching any state. -/
theorem gv_cachedOk {s : Psyringe} {t : Ty} {v : Value} {f : Nat}
    {rs : Except Err Value × Psyringe}
    (hc : CachedOk s t v) (h : getValueFuel f s t = some rs) :
    rs = (.ok v, s) := by
  cases f with
  | zero => simp [getValueFuel] at h
  | succ f =>
      simp only [getValueFuel] at h
      cases hc with
      | inl hv =>
          rw [hv] at h
          cases h; rfl
      | inr hv =>
          obtain ⟨hn, hcs, hval⟩ := hv
          rw [hn] at h
          obtain ⟨c, hc⟩ := Option.isSome_iff_exists.mp hcs
          rw [hc] at h
          rw [hval] at h
          cases h; rfl

/-- A successful `getValue` leaves its answer cached. -/
theorem gv_ok_caches {s : Psyringe} {t : Ty} {v : Value} {f : Nat}
    {s' : Psyringe} (hi : Inv s)
    (h : getValueFuel f s t = some (.ok v, s')) : CachedOk s' t v := by
  have hstep := (gv_good f s t (.ok v, s') hi h).1
  cases f with
  | zero => simp [getValueFuel] at h
  | succ f =>
      simp only [getValueFuel] at h
      split at h
      · rename_i w hw
        cases h
        exact Or.inl hw
      · rename_i hvnone
        split at h
        · cases h
        · rename_i c hc
          split at h
          · rename_i w hw
            cases h
            exact Or.inr ⟨hvnone, by rw [hc]; rfl, hw⟩
          · rename_i hwnone
            split at h
            · split at h
              · cases h
              · rename_i hpend
                -- the drain branch always delivers an error
                rcases hq : (s.stateOf t).pending with _ | ⟨e, rest⟩
                · rw [hq] at hpend; exact absurd rfl hpend
                · rw [hq] at h; simp [deliver] at h
            · split at h
              · cases h
              · rename_i args errs s₂ hra
                rcases hrc : s₂.runConstruct t c args with ⟨w, cerr, s₃⟩
                rw [hrc] at h
                rcases hq : errs ++ cerr.toList with _ | ⟨e, rest⟩
                · rw [hq] at h
                  simp only [deliver] at h
                  cases h
                  have hve : (s₃.setState t
                      { once := true, pending := [], finalValue := v,
                        value := some v }).values = s.values := hstep.values_eq
                  have hce : (s₃.setState t
                      { once := true, pending := [], finalValue := v,
                        value := some v }).ctors = s.ctors := hstep.ctors_eq
                  refine Or.inr ⟨by rw [hve]; exact hvnone,
                    by rw [hce, hc]; rfl, ?_⟩
                  rw [stateOf_setState_self]
                · rw [hq] at h; simp [deliver] at h

/-- A request run is a `Step` and preserves the singleton invariant. -/
theorem run_good (f : Nat) (ts : List Ty) :
    ∀ (s : Psyringe) (out : List (Except Err Value) × Psyringe), Inv s →
      runRequests f s ts = some out → Step s out.2 ∧ Inv out.2 := by
  induction ts with
  | nil =>
      intro s out hi h
      simp only [runRequests] at h
      cases h
      exact ⟨stepRefl s, hi⟩
  | cons t ts ih =>
      intro s out hi h
      simp only [runRequests] at h
      split at h
      · cases h
      · rename_i r s' heq
        split at h
        · cases h
        · rename_i rs s'' heq2
          cases h
          obtain ⟨st1, _, hi1⟩ := gv_good f s t (r, s') hi heq
          obtain ⟨st2, hi2⟩ := ih s' (rs, s'') hi1 heq2
          exact ⟨stepTrans st1 st2, hi2⟩

/-- Once an answer for `t` is cached, every further request for `t` in
a run returns exactly it, and it stays cached. -/
theorem run_cached (f : Nat) (ts : List Ty) :
    ∀ (s : Psyringe) (out : List (Except Err Value) × Psyringe)
      (t : Ty) (v : Value), Inv s → CachedOk s t v →
      runRequests f s ts = some out →
      (∀ r, (t, r) ∈ ts.zip out.1 → r = Except.ok v) ∧ CachedOk out.2 t v := by
  induction ts with
  | nil =>
      intro s out t v _ hc h
      simp only [runRequests] at h
      cases h
      exact ⟨fun r hr => absurd hr (List.not_mem_nil _), hc⟩
  | cons u ts ih =>
      intro s out t v hi hc h
      simp only [runRequests] at h
      split at h
      · cases h
      · rename_i r s' heq
        split at h
        · cases h
        · rename_i rs s'' heq2
          cases h
          obtain ⟨st1, _, hi1⟩ := gv_good f s u (r, s') hi heq
          have hc1 : CachedOk s' t v := CachedOk.step hc st1
          obtain ⟨htail, hc2⟩ := ih s' (rs, s'') t v hi1 hc1 heq2
          refine ⟨?_, hc2⟩
          intro r0 hr0
          rcases List.mem_cons.mp hr0 with hhd | htl
          · injection hhd with h1 h2
            subst h1
            have hgv := gv_cachedOk hc heq
            rw [h2]
            exact congrArg Prod.fst hgv
          · exact htail r0 htl

/-- Any two successful answers for the same injection type within one
run are the same value. -/
theorem run_same (f : Nat) (ts : List Ty) :
    ∀ (s : Psyringe) (out : List (Except Err Value) × Psyringe)
      (t : Ty) (v w : Value), Inv s → runRequests f s ts = some out →
      (t, Except.ok v) ∈ ts.zip out.1 → (t, Except.ok w) ∈ ts.zip out.1 →
      v = w := by
  induction ts with
  | nil =>
      intro s out t v w _ h hv _
      simp only [runRequests] at h
      cases h
      exact absurd hv (List.not_mem_nil _)
  | cons u ts ih =>
      intro s out t v w hi h hv hw
      simp only [runRequests] at h
      split at h
      · cases h
      · rename_i r s' heq
        split at h
        · cases h
        · rename_i rs s'' heq2
          cases h
          obtain ⟨st1, _, hi1⟩ := gv_good f s u (r, s') hi heq
          rcases List.mem_cons.mp hv with hv1 | hv1 <;>
            rcases List.mem_cons.mp hw with hw1 | hw1
          · injection hv1 with hv1a hv1b
            injection hw1 with hw1a hw1b
            rw [← hv1b] at hw1b
            exact (Except.ok.inj hw1b).symm
          · injection hv1 with hv1a hv1b
            subst hv1a
            rw [← hv1b] at heq
            have hc : CachedOk s' t v := gv_ok_caches hi heq
            have := (run_cached f ts s' (rs, s'') t v hi1 hc heq2).1
              (Except.ok w) hw1
            exact (Except.ok.inj this).symm
          · injection hw1 with hw1a hw1b
            subst hw1a
            rw [← hw1b] at heq
            have hc : CachedOk s' t w := gv_ok_caches hi heq
            have := (run_cached f ts s' (rs, s'') t w hi1 hc heq2).1
              (Except.ok v) hv1
            exact Except.ok.inj this
          · exact ih s' (rs, s'') t v w hi1 heq2 hv1 hw1

theorem register_states (s : Psyringe) (t : Ty) :
    (s.registerInjectionType t).2.states = s.states := by
  unfold Psyringe.registerInjectionType
  split <;> rfl

theorem register_invoked (s : Psyringe) (t : Ty) :
    (s.registerInjectionType t).2.invoked = s.invoked := by
  unfold Psyringe.registerInjectionType
  split <;> rfl

theorem lookupTy_insertTy_cases {α : Type} {m : List (Ty × α)} {k u : Ty}
    {a b : α} (h : lookupTy (insertTy m k a) u = some b) :
    (u = k ∧ b = a) ∨ lookupTy m u = some b := by
  by_cases hk : u = k
  · subst hk
    rw [lookupTy_insertTy_self] at h
    exact Or.inl ⟨rfl, (Option.some.inj h).symm⟩
  · rw [lookupTy_insertTy_ne _ _ _ _ hk] at h
    exact Or.inr h

theorem add_states_fresh (s : Psyringe) (item : Item) (u : Ty)
    (st : CtorState)
    (h : lookupTy (s.add item).2.states u = some st) :
    st = {} ∨ lookupTy s.states u = some st := by
  unfold Psyringe.add at h
  split at h
  · rename_i c hc
    unfold Psyringe.addCtor at h
    rw [register_states] at h
    rcases lookupTy_insertTy_cases h with ⟨_, hb⟩ | hb
    · exact Or.inl hb
    · exact Or.inr hb
  · unfold Psyringe.addValue at h
    rw [register_states] at h
    exact Or.inr h

theorem add_invoked (s : Psyringe) (item : Item) :
    (s.add item).2.invoked = s.invoked := by
  unfold Psyringe.add
  split
  · unfold Psyringe.addCtor
    rw [register_invoked]
  · unfold Psyringe.addValue
    rw [register_invoked]

theorem addLoop_states_fresh : ∀ (items : List Item) (s : Psyringe) (i : Nat),
    (∀ u st, lookupTy s.states u = some st → st = ({} : CtorState)) →
    ∀ u st, lookupTy (Psyringe.addLoop s items i).2.states u = some st →
      st = ({} : CtorState) := by
  intro items
  induction items with
  | nil => intro s i hs u st h; exact hs u st h
  | cons item rest ih =>
      intro s i hs u st h
      simp only [Psyringe.addLoop] at h
      split at h
      · exact hs u st h
      · split at h
        · rename_i e s' heq
          have hs' : (s.add item).2.states = s'.states := by rw [heq]
          rw [← hs'] at h
          rcases add_states_fresh s item u st h with h0 | h0
          · exact h0
          · exact hs u st h0
        · rename_i s' heq
          refine ih s' (i + 1) ?_ u st h
          intro u' st' h'
          have hs' : (s.add item).2.states = s'.states := by rw [heq]
          rw [← hs'] at h'
          rcases add_states_fresh s item u' st' h' with h0 | h0
          · exact h0
          · exact hs u' st' h0

theorem addLoop_invoked : ∀ (items : List Item) (s : Psyringe) (i : Nat),
    (Psyringe.addLoop s items i).2.invoked = s.invoked := by
  intro items
  induction items with
  | nil => intro s i; rfl
  | cons item rest ih =>
      intro s i
      simp only [Psyringe.addLoop]
      split
      · rfl
      · split
        · rename_i e s' heq
          have hs' : (s.add item).2.invoked = s'.invoked := by rw [heq]
          rw [← hs', add_invoked]
        · rename_i s' heq
          have hs' : (s.add item).2.invoked = s'.invoked := by rw [heq]
          rw [ih s' (i + 1), ← hs', add_invoked]

/-- A psyringe built by registration alone (`Add` on the zero value)
has not begun any realization. -/
theorem Fresh.add_from_empty (items : List Item) :
    Fresh (Psyringe.empty.Add items).2 := by
  refine ⟨?_, ?_⟩
  · unfold Psyringe.Add
    rw [addLoop_invoked]
    rfl
  · intro u
    unfold Psyringe.stateOf
    cases hl : lookupTy (Psyringe.empty.Add items).2.states u with
    | none => rfl
    | some st =>
        unfold Psyringe.Add at hl
        rw [addLoop_states_fresh items _ 0 (fun u' st' h' => by cases h')
          u st hl]
        rfl

/-- C1: for every Psyringe built by registration, across any sequence
of value requests (any number of `Inject` calls, fields and dependent
constructors): (a) no constructor's invocation procedure runs more than
once; (b) all successful consumers of an injection type receive the
identical value; (c) a type realized to an actual (valid) value had its
constructor invoked exactly once, no matter how many consumers read
it. -/
theorem c1_singleton (f : Nat) (s₀ : Psyringe) (reqs : List Ty)
    (res : List (Except Err Value)) (s₁ : Psyringe)
    (hfresh : Fresh s₀)
    (hrun : runRequests f s₀ reqs = some (res, s₁)) :
    (∀ t, s₁.invoked.count t ≤ 1) ∧
    (∀ t v w, (t, Except.ok v) ∈ reqs.zip res →
      (t, Except.ok w) ∈ reqs.zip res → v = w) ∧
    (∀ t v, (s₁.stateOf t).value = some v → v ≠ Value.invalid →
      s₁.invoked.count t = 1) := by
  have hi := Inv.of_fresh hfresh
  obtain ⟨_, hi1⟩ := run_good f reqs s₀ (res, s₁) hi hrun
  exact ⟨hi1.count_le_one,
    fun t v w hv hw => run_same f reqs s₀ (res, s₁) t v w hi hrun hv hw,
    fun t v hv hnv => hi1.value_invoked t v hv hnv⟩

/-! ## Concrete fixtures used by witnesses and counterexamples -/

def tyInt : Ty := Ty.base "int"

def tyStr : Ty := Ty.base "string"

def tyFloat : Ty := Ty.base "float64"

def tyBool : Ty := Ty.base "bool"

def tyT : Ty := Ty.base "T"

/-- `func() int { return 1 }` as an `Add` argument. -/
def itemIntOk : Item where
  ty := Ty.func .nil (.cons tyInt .nil) false
  val := Value.invalid
  call := fun _ => (Value.mk tyInt 1, none)

/-- `func() (int, error) { return 7, errors.New("boom") }`. -/
def itemIntFail : Item where
  ty := Ty.func .nil (.cons tyInt (.cons .err .nil)) false
  val := Value.invalid
  call := fun _ => (Value.mk tyInt 7, some (Err.message "boom"))

/-- A psyringe holding only the always-succeeding `int` constructor. -/
def pIntOk : Psyringe := (Psyringe.empty.Add [itemIntOk]).2

/-- The expected results of requesting `int` twice from `pIntOk`. -/
def resIntOk : List (Except Err Value) :=
  [.ok (Value.mk tyInt 1), .ok (Value.mk tyInt 1)]

/-- The state of `pIntOk` after two `int` requests. -/
def pIntOk2 : Psyringe :=
  ((runRequests 5 pIntOk [tyInt, tyInt]).getD ([], pIntOk)).2

/-- Witness for C1 at a concrete input: the `int` constructor of
`pIntOk` is invoked exactly once across two requests, both of which
receive the same value. -/
theorem c1_singleton_witness :
    (∀ t, pIntOk2.invoked.count t ≤ 1) ∧
    (∀ t v w, (t, Except.ok v) ∈ [tyInt, tyInt].zip resIntOk →
      (t, Except.ok w) ∈ [tyInt, tyInt].zip resIntOk → v = w) ∧
    (∀ t v, (pIntOk2.stateOf t).value = some v → v ≠ Value.invalid →
      pIntOk2.invoked.count t = 1) :=
  c1_singleton 5 pIntOk [tyInt, tyInt] resIntOk pIntOk2
    (Fresh.add_from_empty [itemIntOk]) rfl

/-- C3 (amended, the true caching half): once a constructor's
realization completes with a SUCCESSFUL value, that value is cached and
every subsequent request for the type returns exactly it, with no state
change. -/
theorem c3_success_cached (f f' : Nat) (s s₁ : Psyringe) (t : Ty)
    (v : Value) (rs : Except Err Value × Psyringe) (hi : Inv s)
    (h : getValueFuel f s t = some (.ok v, s₁))
    (h2 : getValueFuel f' s₁ t = some rs) : rs = (.ok v, s₁) :=
  gv_cachedOk (gv_ok_caches hi h) h2

/-- A psyringe holding only the failing `int` constructor. -/
def pIntFail : Psyringe := (Psyringe.empty.Add [itemIntFail]).2

/-- `pIntFail` after one (failed) request for `int`. -/
def pIntFail1 : Psyringe :=
  ((getValueFuel 5 pIntFail tyInt).getD (.ok Value.invalid, pIntFail)).2

/-- Counterexample to C3 as stated: the first request for the failing
`int` constructor returns the error "boom", but the second request for
the same type returns `Ok` with the constructor's first output and a
nil error — the error outcome is NOT re-delivered to later callers. -/
theorem c3_error_not_cached :
    (getValueFuel 5 pIntFail tyInt).map Prod.fst =
      some (Except.error (Err.message "boom")) ∧
    (getValueFuel 5 pIntFail1 tyInt).map Prod.fst =
      some (Except.ok (Value.mk tyInt 7)) :=
  ⟨rfl, rfl⟩

/-- `pIntOk` after one request for `int`. -/
def pIntOk1 : Psyringe :=
  ((getValueFuel 5 pIntOk tyInt).getD (.ok Value.invalid, pIntOk)).2

/-- The result of a second request for `int` against `pIntOk1`. -/
def rsIntOkSecond : Except Err Value × Psyringe :=
  (getValueFuel 5 pIntOk1 tyInt).getD (.ok Value.invalid, pIntOk1)

/-- Witness for the amended C3 at a concrete input. -/
theorem c3_success_cached_witness :
    rsIntOkSecond = (Except.ok (Value.mk tyInt 1), pIntOk1) :=
  c3_success_cached 5 5 pIntOk pIntOk1 tyInt (Value.mk tyInt 1)
    rsIntOkSecond (Inv.of_fresh (Fresh.add_from_empty [itemIntOk])) rfl rfl

/-- C2 (the code's actual behaviour): `Clone` as implemented panics
with "Clone is not yet implemented" for every receiver, instead of
returning a new Psyringe — contradicting its own doc comment and the
package's Clone tests. -/
theorem c2_clone_panics (s : Psyringe) :
    s.Clone = Except.error "Clone is not yet implemented" := rfl

/-- C10: calling `Inject` on the zero-value Psyringe (on which `Add`
has never run, so its maps are nil) returns the "not initialised; call
Add before Inject" error for any list of targets, leaving the targets
and the psyringe untouched. -/
theorem c10_uninitialised_inject (fuel : Nat) (targets : List InjectArg) :
    Psyringe.Inject fuel Psyringe.empty targets =
      some (targets,
        some (Err.message "not initialised; call Add before Inject"),
        Psyringe.empty) := rfl

/-- `func() int { return 2 }`: a second constructor with injection
type `int`. -/
def itemIntOk2 : Item where
  ty := Ty.func .nil (.cons tyInt .nil) false
  val := Value.invalid
  call := fun _ => (Value.mk tyInt 2, none)

/-- C4 (the code's actual behaviour at the failing input): adding a
second `int` constructor to a psyringe already holding one returns the
registration error, yet the previously registered entry does NOT remain
in place — the rejected entry has overwritten it: before the `Add`,
resolving `int` yields the first constructor's value 1, but after the
failed `Add` it yields the second constructor's value 2 (`addCtor`
stores into the map before `registerInjectionType` runs the duplicate
check). -/
theorem c4_overwritten :
    (pIntOk.Add [itemIntOk2]).1 =
      some (Err.message "injection type int already registered") ∧
    (getValueFuel 5 pIntOk tyInt).map Prod.fst =
      some (Except.ok (Value.mk tyInt 1)) ∧
    (getValueFuel 5 (pIntOk.Add [itemIntOk2]).2 tyInt).map Prod.fst =
      some (Except.ok (Value.mk tyInt 2)) :=
  ⟨rfl, rfl, rfl⟩

theorem register_ctors (s : Psyringe) (t : Ty) :
    (s.registerInjectionType t).2.ctors = s.ctors := by
  unfold Psyringe.registerInjectionType
  split <;> rfl

theorem register_values (s : Psyringe) (t : Ty) :
    (s.registerInjectionType t).2.values = s.values := by
  unfold Psyringe.registerInjectionType
  split <;> rfl

theorem register_isSome (s : Psyringe) (t : Ty) :
    (s.registerInjectionType t).1.isSome ↔ t ∈ s.injectionTypes := by
  unfold Psyringe.registerInjectionType
  split
  · rename_i h
    simp only [Option.isSome_some, true_iff]
    simpa using h
  · rename_i h
    simp only [Option.isSome_none, Bool.false_eq_true, false_iff]
    exact fun hm => h (by simpa using hm)

/-- The general form of the C4 behaviour: registering an entry under an
already-registered injection type returns a registration-time error,
but only after the new entry has overwritten the existing one:
`addCtor` (resp. `addValue`) stores into the map first and performs the
duplicate check afterwards, so the previous entry is replaced even when
`Add` reports the error. -/
theorem c4_add_overwrites (s : Psyringe) (c : Ctor) (t : Ty) (v : Value) :
    (lookupTy (s.addCtor c).2.ctors c.outType = some c ∧
      ((s.addCtor c).1.isSome ↔ c.outType ∈ s.injectionTypes)) ∧
    (lookupTy (s.addValue t v).2.values t = some v ∧
      ((s.addValue t v).1.isSome ↔ t ∈ s.injectionTypes)) := by
  constructor
  · constructor
    · unfold Psyringe.addCtor
      rw [register_ctors]
      exact lookupTy_insertTy_self _ _ _
    · unfold Psyringe.addCtor
      rw [register_isSome]
  · constructor
    · unfold Psyringe.addValue
      rw [register_values]
      exact lookupTy_insertTy_self _ _ _
    · unfold Psyringe.addValue
      rw [register_isSome]

/-- `5` as a fully realised `string` value. -/
def itemStrVal : Item where
  ty := tyStr
  val := Value.mk tyStr 3

/-- Counterexample to C5 as stated: a batch whose second item's
injection type duplicates an existing registration makes `Add` return
an error, but the batch is NOT rolled back atomically — the first
item of the batch (the string value) remains registered. -/
theorem c5_partial_registration :
    (pIntOk.Add [itemStrVal, itemIntOk2]).1 =
      some (Err.message "injection type int already registered") ∧
    lookupTy (pIntOk.Add [itemStrVal, itemIntOk2]).2.values tyStr =
      some (Value.mk tyStr 3) :=
  ⟨rfl, rfl⟩

theorem addLoop_stops (x : Item) (post : List Item) (e : Err)
    (s'' : Psyringe) (hx : x.nilItem = false) :
    ∀ (pre : List Item) (s s' : Psyringe) (i : Nat),
    Psyringe.addLoop s pre i = (none, s') →
    (s'.add x).1 = some e → (s'.add x).2 = s'' →
    Psyringe.addLoop s (pre ++ x :: post) i = (some e, s'') := by
  intro pre
  induction pre with
  | nil =>
      intro s s' i hpre hxe hxs
      simp only [Psyringe.addLoop] at hpre
      injection hpre with h1 h2
      rw [← h2] at hxe hxs
      rw [List.nil_append]
      rcases ha : s.add x with ⟨oe, sx⟩
      rw [ha] at hxe hxs
      obtain rfl : oe = some e := hxe
      obtain rfl : sx = s'' := hxs
      simp [Psyringe.addLoop, hx, ha]
  | cons p rest ih =>
      intro s s' i hpre hxe hxs
      simp only [Psyringe.addLoop] at hpre
      split at hpre
      · cases hpre
      · rename_i hnil
        split at hpre
        · cases hpre
        · rename_i s₁ heq
          rw [List.cons_append]
          simp only [Psyringe.addLoop]
          rw [if_neg hnil, heq]
          exact ih s₁ s' (i + 1) hpre hxe hxs

/-- C5 (amended): `Add` processes the batch in order and returns on the
first failing item: the items before it remain registered (the final
state is exactly the state after the preceding items plus the failing
item's own store-then-error step, cf. C4), and the items after it are
never processed.  There is no rollback. -/
theorem c5_add_stops (s s' s'' : Psyringe) (pre : List Item) (x : Item)
    (post : List Item) (e : Err)
    (hs : s.initialised = true)
    (hpre : Psyringe.addLoop s pre 0 = (none, s'))
    (hx : x.nilItem = false)
    (hxe : (s'.add x).1 = some e)
    (hxs : (s'.add x).2 = s'') :
    s.Add (pre ++ x :: post) = (some e, s'') := by
  unfold Psyringe.Add
  rw [if_pos hs]
  exact addLoop_stops x post e s'' hx pre s s' 0 hpre hxe hxs

/-- The state of `pIntOk` after additionally registering the string
value (the successful prefix of the C5 batch). -/
def pIntOkStr : Psyringe := (Psyringe.addLoop pIntOk [itemStrVal] 0).2

/-- The final state of the failing C5 batch: string registered, the
duplicate `int` constructor stored over the old one. -/
def pIntOkStrDup : Psyringe := (pIntOkStr.add itemIntOk2).2

/-- Witness for the amended C5 at a concrete input. -/
theorem c5_add_stops_witness :
    pIntOk.Add [itemStrVal, itemIntOk2] =
      (some (Err.message "injection type int already registered"),
        pIntOkStrDup) :=
  c5_add_stops pIntOk pIntOkStr pIntOkStrDup [itemStrVal] itemIntOk2 []
    (Err.message "injection type int already registered")
    rfl rfl rfl rfl rfl

def tyA : Ty := Ty.base "psyringe.A"

def tyB : Ty := Ty.base "psyringe.B"

/-- `func(B) A`: constructor for `A` depending on `B`. -/
def itemCtorA : Item where
  ty := Ty.func (.cons tyB .nil) (.cons tyA .nil) false
  val := Value.invalid
  call := fun _ => (Value.mk tyA 0, none)

/-- `func(A) B`: constructor for `B` depending on `A`. -/
def itemCtorB : Item where
  ty := Ty.func (.cons tyA .nil) (.cons tyB .nil) false
  val := Value.invalid
  call := fun _ => (Value.mk tyB 0, none)

/-- A psyringe whose two constructors form the dependency cycle
`A → B → A` (every parameter type is registered, so no missing
dependency takes precedence). -/
def pCycle : Psyringe := (Psyringe.empty.Add [itemCtorA, itemCtorB]).2

/-- C6 (the code's actual behaviour at the failing input): on the
cyclic graph `A → B → A`, `Test` returns nil — under every possible
map iteration order — instead of the cycle diagnostic the claim (and
the repo's own `TestPsyringe_Test_dependencyCycle` test) describe;
`Test` only checks that parameters are registered and has no cycle
detection at all.  Requesting `A` (as `Inject` would) diverges: the
realization deadlocks on the cycle. -/
theorem c6_no_cycle_detection :
    Psyringe.Test pCycle = none ∧
    Psyringe.TestWithOrder pCycle [tyA, tyB] = none ∧
    Psyringe.TestWithOrder pCycle [tyB, tyA] = none ∧
    (getValueFuel 30 pCycle tyA).isNone = true :=
  ⟨rfl, rfl, rfl, rfl⟩

/-- `func(string) int`: constructor for `int` with an (unregistered)
`string` dependency. -/
def itemIntNeedsStr : Item where
  ty := Ty.func (.cons tyStr .nil) (.cons tyInt .nil) false
  val := Value.invalid
  call := fun _ => (Value.mk tyInt 0, none)

/-- `func(float64) bool`: constructor for `bool` with an (unregistered)
`float64` dependency. -/
def itemBoolNeedsFloat : Item where
  ty := Ty.func (.cons tyFloat .nil) (.cons tyBool .nil) false
  val := Value.invalid
  call := fun _ => (Value.mk tyBool 0, none)

/-- A psyringe holding two constructors, each with a different missing
dependency. -/
def pTwoMissing : Psyringe :=
  (Psyringe.empty.Add [itemIntNeedsStr, itemBoolNeedsFloat]).2

/-- Counterexample to C7 as stated: `Test` iterates the `ctors` map in
Go's nondeterministic map order.  Both listed orders are permutations
of the registered keys (so both are possible iteration orders of the
same psyringe), yet they produce different diagnostics — two
invocations of `Test` on the same registrations need not agree. -/
theorem c7_order_dependent :
    ([tyInt, tyBool] : List Ty).Perm pTwoMissing.ctorKeys ∧
    ([tyBool, tyInt] : List Ty).Perm pTwoMissing.ctorKeys ∧
    Psyringe.TestWithOrder pTwoMissing [tyInt, tyBool] =
      some (Err.noConstructorOrValue tyStr (some tyInt) (some 0)) ∧
    Psyringe.TestWithOrder pTwoMissing [tyBool, tyInt] =
      some (Err.noConstructorOrValue tyFloat (some tyBool) (some 0)) ∧
    Psyringe.TestWithOrder pTwoMissing [tyInt, tyBool] ≠
      Psyringe.TestWithOrder pTwoMissing [tyBool, tyInt] :=
  ⟨List.Perm.refl _, List.Perm.swap tyInt tyBool [], rfl, rfl, by decide⟩

/-- When every registered constructor's parameters are all satisfied,
`Test` returns nil in every iteration order. -/
theorem testWithOrder_none (s : Psyringe)
    (h : ∀ t c, lookupTy s.ctors t = some c → s.testCtor c = none) :
    ∀ o, s.TestWithOrder o = none := by
  intro o
  induction o with
  | nil => rfl
  | cons t rest ih =>
      simp only [Psyringe.TestWithOrder]
      cases hc : lookupTy s.ctors t with
      | none => exact ih
      | some c =>
          show (match s.testCtor c with
                | some e => some e
                | none => s.TestWithOrder rest) = none
          rw [h t c hc]
          exact ih

/-- C7 (amended): `Test`'s result is a function of the map iteration
order, which Go randomizes run to run; determinism across orders holds
when the graph is satisfiable — if every registered constructor's
parameters are all satisfied, every iteration order yields nil — but
when several constructors are unsatisfied, different orders can return
different diagnostics (see the counterexample). -/
theorem c7_deterministic_when_satisfiable (s : Psyringe) (o₁ o₂ : List Ty)
    (h : ∀ t c, lookupTy s.ctors t = some c → s.testCtor c = none) :
    s.TestWithOrder o₁ = s.TestWithOrder o₂ := by
  rw [testWithOrder_none s h o₁, testWithOrder_none s h o₂]

/-- `func(int) string`: constructor for `string` fed by the `int`
constructor. -/
def itemStrNeedsInt : Item where
  ty := Ty.func (.cons tyInt .nil) (.cons tyStr .nil) false
  val := Value.invalid
  call := fun args => (Value.mk tyStr (args.length + 10), none)

/-- A fully satisfiable psyringe: an `int` constructor and a `string`
constructor depending on it. -/
def pSat : Psyringe := (Psyringe.empty.Add [itemIntOk, itemStrNeedsInt]).2

theorem pSat_ctors :
    pSat.ctors =
      [(tyInt, { outType := tyInt, inTypes := [],
                 construct := itemIntOk.call }),
       (tyStr, { outType := tyStr, inTypes := [tyInt],
                 construct := itemStrNeedsInt.call })] := rfl

/-- Witness for the amended C7 at a concrete input. -/
theorem c7_deterministic_witness :
    pSat.TestWithOrder [tyInt, tyStr] = pSat.TestWithOrder [tyStr, tyInt] :=
  c7_deterministic_when_satisfiable pSat [tyInt, tyStr] [tyStr, tyInt] (by
    intro t c h
    rw [pSat_ctors] at h
    simp only [lookupTy] at h
    split at h
    · cases h; rfl
    · split at h
      · cases h; rfl
      · cases h)

/-- Whether some entry (constructor or value) is registered for `t` —
the two `continue` conditions of `testParametersAreRegisteredIn`. -/
def registeredFor (s : Psyringe) (t : Ty) : Bool :=
  (lookupTy s.ctors t).isSome || (lookupTy s.values t).isSome

/-- The spec's description of the reported position: the zero-based
index of the first parameter with no registered entry. -/
def firstUnsatIdx (s : Psyringe) (ps : List Ty) : Option Nat :=
  ps.findIdx? (fun p => !(registeredFor s p))

theorem testCtorFrom_none_iff (s : Psyringe) (c : Ctor) :
    ∀ (ps : List Ty) (i : Nat),
    (s.testCtorFrom c i ps = none ↔ ∀ p ∈ ps, registeredFor s p = true) := by
  intro ps
  induction ps with
  | nil => intro i; simp [Psyringe.testCtorFrom]
  | cons p rest ih =>
      intro i
      simp only [Psyringe.testCtorFrom]
      by_cases h1 : (lookupTy s.ctors p).isSome = true
      · rw [if_pos h1]
        rw [ih (i + 1)]
        constructor
        · intro hr q hq
          rcases List.mem_cons.mp hq with rfl | hq
          · simp [registeredFor, h1]
          · exact hr q hq
        · intro hr q hq
          exact hr q (List.mem_cons_of_mem p hq)
      · rw [if_neg h1]
        by_cases h2 : (lookupTy s.values p).isSome = true
        · rw [if_pos h2]
          rw [ih (i + 1)]
          constructor
          · intro hr q hq
            rcases List.mem_cons.mp hq with rfl | hq
            · simp [registeredFor, h2]
            · exact hr q hq
          · intro hr q hq
            exact hr q (List.mem_cons_of_mem p hq)
        · rw [if_neg h2]
          simp only [reduceCtorEq, false_iff]
          intro hr
          have := hr p (List.mem_cons_self p rest)
          simp [registeredFor, h1, h2] at this

theorem testCtorFrom_some_spec (s : Psyringe) (c : Ctor) :
    ∀ (ps : List Ty) (i : Nat) (e : Err),
    s.testCtorFrom c i ps = some e →
    ∃ j, j < ps.length ∧
      List.findIdx? (fun p => !(registeredFor s p)) ps i = some (i + j) ∧
      e = Err.noConstructorOrValue (ps.getD j Ty.err) (some c.outType)
            (some (i + j)) := by
  intro ps
  induction ps with
  | nil => intro i e h; simp [Psyringe.testCtorFrom] at h
  | cons p rest ih =>
      intro i e h
      simp only [Psyringe.testCtorFrom] at h
      by_cases h1 : (lookupTy s.ctors p).isSome = true
      · rw [if_pos h1] at h
        obtain ⟨j, hj, hfind, he⟩ := ih (i + 1) e h
        refine ⟨j + 1, by simpa using hj, ?_, ?_⟩
        · rw [List.findIdx?]
          have hp : (!(registeredFor s p)) = false := by
            simp [registeredFor, h1]
          rw [hp]
          simp only [Bool.false_eq_true, if_false]
          rw [hfind]
          congr 1
          omega
        · rw [he, (by omega : i + 1 + j = i + (j + 1))]
          simp
      · rw [if_neg h1] at h
        by_cases h2 : (lookupTy s.values p).isSome = true
        · rw [if_pos h2] at h
          obtain ⟨j, hj, hfind, he⟩ := ih (i + 1) e h
          refine ⟨j + 1, by simpa using hj, ?_, ?_⟩
          · rw [List.findIdx?]
            have hp : (!(registeredFor s p)) = false := by
              simp [registeredFor, h2]
            rw [hp]
            simp only [Bool.false_eq_true, if_false]
            rw [hfind]
            congr 1
            omega
          · rw [he, (by omega : i + 1 + j = i + (j + 1))]
            simp
        · rw [if_neg h2] at h
          refine ⟨0, by simp, ?_, ?_⟩
          · rw [List.findIdx?]
            have hp : (!(registeredFor s p)) = true := by
              simp [registeredFor, h1, h2]
            rw [hp]
            simp
          · cases h
            simp

/-- Any diagnostic `Test` returns comes from some registered
constructor's own parameter check. -/
theorem testWithOrder_some (s : Psyringe) :
    ∀ (o : List Ty) (e : Err), s.TestWithOrder o = some e →
    ∃ u d, lookupTy s.ctors u = some d ∧ s.testCtor d = some e := by
  intro o
  induction o with
  | nil => intro e h; cases h
  | cons t rest ih =>
      intro e h
      simp only [Psyringe.TestWithOrder] at h
      cases hc : lookupTy s.ctors t with
      | none =>
          rw [hc] at h
          exact ih e h
      | some c =>
          rw [hc] at h
          have h' : (match s.testCtor c with
              | some e0 => some e0
              | none => s.TestWithOrder rest) = some e := h
          cases hd : s.testCtor c with
          | none =>
              rw [hd] at h'
              exact ih e h'
          | some e' =>
              rw [hd] at h'
              cases h'
              exact ⟨t, c, hc, hd⟩

/-- The parts of C8 the code satisfies, proved generally: for every
registered constructor, the parameter check
returns nil exactly when every parameter type has a registered entry;
any diagnostic it produces carries the type and zero-based index of the
FIRST unsatisfied parameter, and names the constructor by its OUTPUT
(injection) type — not by its full function signature, which the stored
`ctor` does not retain.  Lifted to `Test`: every iteration order yields
nil when all constructors are satisfied, and any diagnostic `Test`
returns is such a first-unsatisfied-parameter report of some registered
constructor. -/
theorem c8_first_missing_param (s : Psyringe) (t : Ty) (c : Ctor)
    (_hc : lookupTy s.ctors t = some c) :
    (s.testCtor c = none ↔ ∀ p ∈ c.inTypes, registeredFor s p = true) ∧
    (∀ e, s.testCtor c = some e →
      ∃ j, j < c.inTypes.length ∧ firstUnsatIdx s c.inTypes = some j ∧
        e = Err.noConstructorOrValue (c.inTypes.getD j Ty.err)
              (some c.outType) (some j)) ∧
    (∀ o, (∀ u d, lookupTy s.ctors u = some d → s.testCtor d = none) →
      s.TestWithOrder o = none) ∧
    (∀ o e, s.TestWithOrder o = some e →
      ∃ u d, lookupTy s.ctors u = some d ∧ s.testCtor d = some e) := by
  refine ⟨testCtorFrom_none_iff s c c.inTypes 0, ?_,
    fun o h => testWithOrder_none s h o, fun o e h => testWithOrder_some s o e h⟩
  intro e h
  obtain ⟨j, hj, hfind, he⟩ := testCtorFrom_some_spec s c c.inTypes 0 e h
  refine ⟨j, hj, ?_, ?_⟩
  · unfold firstUnsatIdx
    rw [hfind]
    congr 1
    omega
  · rw [he]
    congr 2
    omega

/-- `func(string, float64, int) *T` as an `Add` argument. -/
def sigTy : Ty :=
  Ty.func (.cons tyStr (.cons tyFloat (.cons tyInt .nil)))
    (.cons (Ty.ptr tyT) .nil) false

def itemPtrT : Item where
  ty := sigTy
  val := Value.invalid
  call := fun _ => (Value.mk (Ty.ptr tyT) 0, none)

/-- `pSig` registers `func(string, float64, int) *T` plus a `string`
value and an `int` constructor; `float64` is unsatisfied. -/
def pSig : Psyringe :=
  (Psyringe.empty.Add [itemPtrT, itemStrVal, itemIntOk]).2

/-- C8 (the code's actual behaviour at the failing input): the
diagnostic does carry the zero-based index 1 of the first unsatisfied
parameter (`float64`), but it names the constructor by its OUTPUT type
`*T` — not by its signature `func(string, float64, int) *T` as the
claim (and the `ConstructorType` field's own doc comment, "the type of
the constructor function") requires: `testParametersAreRegisteredIn`
stores `&c.outType` there. -/
theorem c8_output_type_not_signature :
    Psyringe.Test pSig =
      some (Err.noConstructorOrValue tyFloat (some (Ty.ptr tyT)) (some 1)) ∧
    Ty.ptr tyT ≠ sigTy :=
  ⟨rfl, by decide⟩

/-- The `ctor` that `Add` builds from `itemPtrT`. -/
def ctorSig : Ctor where
  outType := Ty.ptr tyT
  inTypes := [tyStr, tyFloat, tyInt]
  construct := itemPtrT.call

/-- Witness for the amended C8 at a concrete input. -/
theorem c8_first_missing_param_witness :
    (pSig.testCtor ctorSig = none ↔
      ∀ p ∈ ctorSig.inTypes, registeredFor pSig p = true) ∧
    (∀ e, pSig.testCtor ctorSig = some e →
      ∃ j, j < ctorSig.inTypes.length ∧
        firstUnsatIdx pSig ctorSig.inTypes = some j ∧
        e = Err.noConstructorOrValue (ctorSig.inTypes.getD j Ty.err)
              (some ctorSig.outType) (some j)) ∧
    (∀ o, (∀ u d, lookupTy pSig.ctors u = some d → pSig.testCtor d = none) →
      pSig.TestWithOrder o = none) ∧
    (∀ o e, pSig.TestWithOrder o = some e →
      ∃ u d, lookupTy pSig.ctors u = some d ∧ pSig.testCtor d = some e) :=
  c8_first_missing_param pSig (Ty.ptr tyT) ctorSig rfl

theorem firstFailed_none_iff :
    ∀ outs : List FieldOutcome,
    (firstFailed outs = none ↔ ∀ e, FieldOutcome.failed e ∉ outs) := by
  intro outs
  induction outs with
  | nil => simp [firstFailed]
  | cons o rest ih =>
      cases o with
      | assigned v =>
          simp only [firstFailed, ih]
          constructor
          · intro h e hm
            rcases List.mem_cons.mp hm with h0 | h0
            · cases h0
            · exact h e h0
          · intro h e hm
            exact h e (List.mem_cons_of_mem _ hm)
      | skipped e0 =>
          simp only [firstFailed, ih]
          constructor
          · intro h e hm
            rcases List.mem_cons.mp hm with h0 | h0
            · cases h0
            · exact h e h0
          · intro h e hm
            exact h e (List.mem_cons_of_mem _ hm)
      | failed e0 =>
          simp only [firstFailed]
          constructor
          · intro h; cases h
          · intro h
            exact absurd (List.mem_cons_self _ rest) (h e0)

theorem firstFailed_mem :
    ∀ (outs : List FieldOutcome) (e : Err),
    firstFailed outs = some e → FieldOutcome.failed e ∈ outs := by
  intro outs
  induction outs with
  | nil => intro e h; cases h
  | cons o rest ih =>
      intro e h
      cases o with
      | assigned v =>
          simp only [firstFailed] at h
          exact List.mem_cons_of_mem _ (ih e h)
      | skipped e0 =>
          simp only [firstFailed] at h
          exact List.mem_cons_of_mem _ (ih e h)
      | failed e0 =>
          simp only [firstFailed] at h
          cases h
          exact List.mem_cons_self _ rest

theorem injectFields_failed_not_noentry (fuel : Nat) :
    ∀ (fields : List (Ty × Value)) (s : Psyringe)
      (fields' : List (Ty × Value)) (outs : List FieldOutcome)
      (s' : Psyringe),
    injectFields fuel s fields = some (fields', outs, s') →
    ∀ e, FieldOutcome.failed e ∈ outs → e.isNoConstructorOrValue = false := by
  intro fields
  induction fields with
  | nil =>
      intro s fields' outs s' h e hm
      simp only [injectFields] at h
      cases h
      cases hm
  | cons f rest ih =>
      intro s fields' outs s' h e hm
      obtain ⟨t, cur⟩ := f
      simp only [injectFields] at h
      split at h
      · cases h
      · rename_i v s₁ heq
        split at h
        · cases h
        · rename_i fs outs₁ s₂ heq2
          cases h
          rcases List.mem_cons.mp hm with h0 | h0
          · cases h0
          · exact ih _ _ _ _ heq2 e h0
      · rename_i e1 s₁ heq
        split at h
        · cases h
        · rename_i fs outs₁ s₂ heq2
          split at h
          · cases h
            rcases List.mem_cons.mp hm with h0 | h0
            · cases h0
            · exact ih _ _ _ _ heq2 e h0
          · rename_i hnc
            cases h
            rcases List.mem_cons.mp hm with h0 | h0
            · injection h0 with h0e
              rw [h0e]
              cases hx : e1.isNoConstructorOrValue
              · rfl
              · exact absurd hx hnc
            · exact ih _ _ _ _ heq2 e h0

theorem injectFields_spec (fuel : Nat) :
    ∀ (fields : List (Ty × Value)) (s : Psyringe)
      (fields' : List (Ty × Value)) (outs : List FieldOutcome)
      (s' : Psyringe),
    injectFields fuel s fields = some (fields', outs, s') →
    fields'.length = fields.length ∧ outs.length = fields.length ∧
    (∀ i (hf : i < fields.length) (hf' : i < fields'.length)
       (ho : i < outs.length),
      (∀ v, outs.get ⟨i, ho⟩ = FieldOutcome.assigned v →
        fields'.get ⟨i, hf'⟩ = ((fields.get ⟨i, hf⟩).1, v)) ∧
      (∀ e, outs.get ⟨i, ho⟩ = FieldOutcome.skipped e →
        fields'.get ⟨i, hf'⟩ = fields.get ⟨i, hf⟩ ∧
          e.isNoConstructorOrValue = true) ∧
      (∀ e, outs.get ⟨i, ho⟩ = FieldOutcome.failed e →
        fields'.get ⟨i, hf'⟩ = fields.get ⟨i, hf⟩ ∧
          e.isNoConstructorOrValue = false)) := by
  intro fields
  induction fields with
  | nil =>
      intro s fields' outs s' h
      simp only [injectFields] at h
      cases h
      exact ⟨rfl, rfl, fun i hf _ _ => absurd hf (Nat.not_lt_zero i)⟩
  | cons f rest ih =>
      intro s fields' outs s' h
      obtain ⟨t, cur⟩ := f
      simp only [injectFields] at h
      split at h
      · cases h
      · rename_i v s₁ heq
        split at h
        · cases h
        · rename_i fs outs₁ s₂ heq2
          cases h
          obtain ⟨ih1, ih2, ih3⟩ := ih _ _ _ _ heq2
          refine ⟨by simp [ih1], by simp [ih2], ?_⟩
          intro i hf hf' ho
          cases i with
          | zero =>
              refine ⟨?_, ?_, ?_⟩
              · intro v' hv'
                simp only [List.get] at hv' ⊢
                injection hv' with hv
                rw [← hv]
              · intro e he
                simp only [List.get] at he
                cases he
              · intro e he
                simp only [List.get] at he
                cases he
          | succ i =>
              have hf2 : i < rest.length := Nat.lt_of_succ_lt_succ hf
              have hf2' : i < fs.length := Nat.lt_of_succ_lt_succ hf'
              have ho2 : i < outs₁.length := Nat.lt_of_succ_lt_succ ho
              obtain ⟨p1, p2, p3⟩ := ih3 i hf2 hf2' ho2
              exact ⟨fun v' hv' => p1 v' hv', fun e he => p2 e he,
                fun e he => p3 e he⟩
      · rename_i e1 s₁ heq
        split at h
        · cases h
        · rename_i fs outs₁ s₂ heq2
          split at h
          · rename_i hnc
            cases h
            obtain ⟨ih1, ih2, ih3⟩ := ih _ _ _ _ heq2
            refine ⟨by simp [ih1], by simp [ih2], ?_⟩
            intro i hf hf' ho
            cases i with
            | zero =>
                refine ⟨?_, ?_, ?_⟩
                · intro v' hv'
                  simp only [List.get] at hv'
                  cases hv'
                · intro e he
                  simp only [List.get] at he
                  injection he with h0
                  exact ⟨rfl, h0 ▸ hnc⟩
                · intro e he
                  simp only [List.get] at he
                  cases he
            | succ i =>
                have hf2 : i < rest.length := Nat.lt_of_succ_lt_succ hf
                have hf2' : i < fs.length := Nat.lt_of_succ_lt_succ hf'
                have ho2 : i < outs₁.length := Nat.lt_of_succ_lt_succ ho
                exact ih3 i hf2 hf2' ho2
          · rename_i hnc
            cases h
            obtain ⟨ih1, ih2, ih3⟩ := ih _ _ _ _ heq2
            have hb : e1.isNoConstructorOrValue = false := by
              cases hx : e1.isNoConstructorOrValue
              · rfl
              · exact absurd hx hnc
            refine ⟨by simp [ih1], by simp [ih2], ?_⟩
            intro i hf hf' ho
            cases i with
            | zero =>
                refine ⟨?_, ?_, ?_⟩
                · intro v' hv'
                  simp only [List.get] at hv'
                  cases hv'
                · intro e he
                  simp only [List.get] at he
                  cases he
                · intro e he
                  simp only [List.get] at he
                  injection he with h0
                  exact ⟨rfl, h0 ▸ hb⟩
            | succ i =>
                have hf2 : i < rest.length := Nat.lt_of_succ_lt_succ hf
                have hf2' : i < fs.length := Nat.lt_of_succ_lt_succ hf'
                have ho2 : i < outs₁.length := Nat.lt_of_succ_lt_succ ho
                exact ih3 i hf2 hf2' ho2

/-- C9: the per-field loop of `inject` assigns every field whose type
resolves to a value, leaves every field whose resolution signals
`NoConstructorOrValue` (nothing registered) completely untouched, and
leaves a field untouched on any other (constructor-failure) error as
well; the error `inject` propagates (`firstFailed`) can only be a
non-`NoConstructorOrValue` failure — absent entries never fail an
`Inject` by themselves. -/
theorem c9_inject_frame (fuel : Nat) (s : Psyringe)
    (fields fields' : List (Ty × Value)) (outs : List FieldOutcome)
    (s' : Psyringe)
    (h : injectFields fuel s fields = some (fields', outs, s')) :
    fields'.length = fields.length ∧ outs.length = fields.length ∧
    (∀ i (hf : i < fields.length) (hf' : i < fields'.length)
       (ho : i < outs.length),
      (∀ v, outs.get ⟨i, ho⟩ = FieldOutcome.assigned v →
        fields'.get ⟨i, hf'⟩ = ((fields.get ⟨i, hf⟩).1, v)) ∧
      (∀ e, outs.get ⟨i, ho⟩ = FieldOutcome.skipped e →
        fields'.get ⟨i, hf'⟩ = fields.get ⟨i, hf⟩ ∧
          e.isNoConstructorOrValue = true) ∧
      (∀ e, outs.get ⟨i, ho⟩ = FieldOutcome.failed e →
        fields'.get ⟨i, hf'⟩ = fields.get ⟨i, hf⟩ ∧
          e.isNoConstructorOrValue = false)) ∧
    (∀ e, firstFailed outs = some e → e.isNoConstructorOrValue = false) ∧
    (firstFailed outs = none ↔ ∀ e, FieldOutcome.failed e ∉ outs) ∧
    Psyringe.injectOne fuel s (InjectArg.ptrStruct false fields) =
      some (InjectArg.ptrStruct false fields', firstFailed outs, s') := by
  obtain ⟨h1, h2, h3⟩ := injectFields_spec fuel fields s fields' outs s' h
  refine ⟨h1, h2, h3, ?_, firstFailed_none_iff outs, ?_⟩
  · intro e he
    exact injectFields_failed_not_noentry fuel fields s fields' outs s' h e
      (firstFailed_mem outs e he)
  · simp only [Psyringe.injectOne]
    rw [h]

/-- `5` as a fully realised `int` value. -/
def itemIntVal : Item where
  ty := tyInt
  val := Value.mk tyInt 5

/-- A psyringe holding only the realised `int` value. -/
def pValInt : Psyringe := (Psyringe.empty.Add [itemIntVal]).2

/-- A two-field target: an `int` field (satisfiable) and a `string`
field (no entry registered). -/
def fieldsW : List (Ty × Value) :=
  [(tyInt, Value.mk tyInt 99), (tyStr, Value.mk tyStr 4)]

/-- The result of injecting into `fieldsW` from `pValInt`. -/
def outW : List (Ty × Value) × List FieldOutcome × Psyringe :=
  (injectFields 5 pValInt fieldsW).getD ([], [], pValInt)

/-- Witness for C9 at a concrete input: the `int` field is assigned,
the `string` field is skipped (NoConstructorOrValue) and untouched, and
no error propagates. -/
theorem c9_inject_frame_witness :
    outW.1.length = fieldsW.length ∧ outW.2.1.length = fieldsW.length ∧
    (∀ i (hf : i < fieldsW.length) (hf' : i < outW.1.length)
       (ho : i < outW.2.1.length),
      (∀ v, outW.2.1.get ⟨i, ho⟩ = FieldOutcome.assigned v →
        outW.1.get ⟨i, hf'⟩ = ((fieldsW.get ⟨i, hf⟩).1, v)) ∧
      (∀ e, outW.2.1.get ⟨i, ho⟩ = FieldOutcome.skipped e →
        outW.1.get ⟨i, hf'⟩ = fieldsW.get ⟨i, hf⟩ ∧
          e.isNoConstructorOrValue = true) ∧
      (∀ e, outW.2.1.get ⟨i, ho⟩ = FieldOutcome.failed e →
        outW.1.get ⟨i, hf'⟩ = fieldsW.get ⟨i, hf⟩ ∧
          e.isNoConstructorOrValue = false)) ∧
    (∀ e, firstFailed outW.2.1 = some e →
      e.isNoConstructorOrValue = false) ∧
    (firstFailed outW.2.1 = none ↔
      ∀ e, FieldOutcome.failed e ∉ outW.2.1) ∧
    Psyringe.injectOne 5 pValInt (InjectArg.ptrStruct false fieldsW) =
      some (InjectArg.ptrStruct false outW.1, firstFailed outW.2.1,
        outW.2.2) :=
  c9_inject_frame 5 pValInt fieldsW outW.1 outW.2.1 outW.2.2 rfl

end Psy
